import Mathlib

/-!
BrainBank: verification development.

Shallow embedding of three programs of the repository:

* `go/unit-test/examples/mockLearningv1.go` (`Math`, `MathImpl`, `Calculator`),
* `kafka/code/producer/producer.go` (`createTopicIfNoteExist`),
* `go/code-dump/go-distributed-code-log.go` (`tryAcquireLock`).

Go `int` is a 64-bit two's-complement integer: values are `Int`s and every
arithmetic result is reduced with `wrapInt`.
-/

namespace BrainBank

/-! ## mockLearningv1.go -/

/-- Reduction of a mathematical integer to the Go `int` (64-bit, two's
complement) that the machine stores. -/
def wrapInt (x : Int) : Int := (x + 2 ^ 63) % 2 ^ 64 - 2 ^ 63

/-- Values a Go `int` can hold. -/
def IsGoInt (x : Int) : Prop := -(2 ^ 63) ≤ x ∧ x < 2 ^ 63

instance (x : Int) : Decidable (IsGoInt x) := by
  unfold IsGoInt; infer_instance

/-- The `Math` interface: two binary methods on `int`. -/
structure Math where
  Add : Int → Int → Int
  Multiply : Int → Int → Int

/-- The `MathImpl` methods: `return a + b` and `return a * b`. -/
def MathImpl : Math where
  Add := fun a b => wrapInt (a + b)
  Multiply := fun a b => wrapInt (a * b)

/-- `Calculator`: `sum := m.Add(a, b); product := m.Multiply(a, b);
return sum + product`. -/
def Calculator (m : Math) (a b : Int) : Int :=
  let sum := m.Add a b
  let product := m.Multiply a b
  wrapInt (sum + product)

/-! ## producer.go -/

/-- The fields of `sarama.TopicDetail` the program sets. -/
structure TopicDetail where
  NumPartitions : Int
  ReplicationFactor : Int
  ConfigEntries : Option (List (String × Option String))
deriving DecidableEq, Repr

/-- What `createTopicIfNoteExist` does to the outside world, in program order. -/
inductive AdminCall
  | NewClient (brokers : List String)
  | NewClusterAdminFromClient
  | ListTopics
  | CreateTopic (topic : String) (detail : TopicDetail) (validateOnly : Bool)
  | PrintCreated (topic : String)
  | PrintExists (detail : TopicDetail)
  | AdminClose
  | ClientClose
deriving DecidableEq, Repr

/-- The answers of the sarama library to the calls the function makes. The
configuration is passed through untouched, so its type is a parameter. -/
structure Sarama (κ : Type) where
  NewClient : List String → κ → Except String Unit
  NewClusterAdminFromClient : Except String Unit
  ListTopics : Except String (List (String × TopicDetail))
  CreateTopic : String → TopicDetail → Bool → Except String Unit

/-- How a call of `createTopicIfNoteExist` ends: `log.Fatalf` exits the process
(deferred calls do not run), otherwise the function returns a `bool`. -/
inductive Exit
  | Fatalf (msg : String)
  | Return (b : Bool)
deriving DecidableEq, Repr

/-- `createTopicIfNoteExist` (producer.go, lines 13-57). The Go map
`topicListMap` is an association list read with `List.lookup`. On a normal
return the deferred `adminClient.Close()` and `client.Close()` run, last
deferred first. -/
def createTopicIfNoteExist {κ : Type} (lib : Sarama κ) (config : κ) (topic : String)
    (brokers : List String) : Exit × List AdminCall :=
  match lib.NewClient brokers config with
  | .error err => (.Fatalf ("Failed to start the producer : " ++ err), [.NewClient brokers])
  | .ok _ =>
    match lib.NewClusterAdminFromClient with
    | .error err =>
      (.Fatalf ("Failed to start admin client : " ++ err),
        [.NewClient brokers, .NewClusterAdminFromClient])
    | .ok _ =>
      match lib.ListTopics with
      | .error err =>
        (.Fatalf ("Failed to fetch topics from admin client : " ++ err),
          [.NewClient brokers, .NewClusterAdminFromClient, .ListTopics])
      | .ok topicListMap =>
        match topicListMap.lookup topic with
        | none =>
          let newTopic : TopicDetail :=
            { NumPartitions := 1, ReplicationFactor := 1, ConfigEntries := none }
          match lib.CreateTopic topic newTopic false with
          | .error err =>
            (.Fatalf ("Failed to create topic " ++ topic ++ " using admin client :" ++ err),
              [.NewClient brokers, .NewClusterAdminFromClient, .ListTopics,
                .CreateTopic topic newTopic false])
          | .ok _ =>
            (.Return true,
              [.NewClient brokers, .NewClusterAdminFromClient, .ListTopics,
                .CreateTopic topic newTopic false, .PrintCreated topic,
                .AdminClose, .ClientClose])
        | some topicDetails =>
          (.Return false,
            [.NewClient brokers, .NewClusterAdminFromClient, .ListTopics,
              .PrintExists topicDetails, .AdminClose, .ClientClose])

/-- The `CreateTopic` calls of a trace. -/
def createCalls (trace : List AdminCall) : List AdminCall :=
  trace.filter fun c =>
    match c with
    | .CreateTopic _ _ _ => true
    | _ => false

/-- A library in which every call succeeds and `ListTopics` answers `listing`. -/
def healthyCluster (listing : List (String × TopicDetail)) : Sarama Unit where
  NewClient := fun _ _ => .ok ()
  NewClusterAdminFromClient := .ok ()
  ListTopics := .ok listing
  CreateTopic := fun _ _ _ => .ok ()

/-- A listing with the single topic `orders`. -/
def sampleListing : List (String × TopicDetail) :=
  [("orders", { NumPartitions := 3, ReplicationFactor := 2, ConfigEntries := none })]

/-! ## go-distributed-code-log.go: the etcd client interface -/

/-- An etcd comparison `Compare(Value(key), result, value)`. -/
structure Cmp where
  Key : String
  Result : String
  Value : String
deriving DecidableEq, Repr

/-- `etcd3.CmpValue(key, result, v)` in the form the program writes it. -/
def CmpValue (key result v : String) : Cmp := { Key := key, Result := result, Value := v }

/-- The two etcd operations the program puts in a transaction. -/
inductive Op
  | OpPut (key val : String)
  | OpGet (key : String)
deriving DecidableEq, Repr

/-- A transaction `Txn(ctx).If(cmps...).Then(ops...).Else(ops...)`. -/
structure TxnRequest where
  Cmps : List Cmp
  ThenOps : List Op
  ElseOps : List Op
deriving DecidableEq, Repr

/-- `resp.Header`: only the revision is read. -/
structure ResponseHeader where
  Revision : Int
deriving DecidableEq, Repr

/-- `*etcd3.TxnResponse`: the header and the flag telling which branch ran. -/
structure TxnResponse where
  Header : ResponseHeader
  Succeeded : Bool
deriving DecidableEq, Repr

/-- Equality of call results is decidable. -/
instance instDecidableEqExcept {ε α : Type} [DecidableEq ε] [DecidableEq α] :
    DecidableEq (Except ε α) := fun a b =>
  match a, b with
  | .error x, .error y =>
    if h : x = y then isTrue (by rw [h]) else isFalse (fun e => h (by cases e; rfl))
  | .ok x, .ok y =>
    if h : x = y then isTrue (by rw [h]) else isFalse (fun e => h (by cases e; rfl))
  | .error _, .ok _ => isFalse (fun e => by cases e)
  | .ok _, .error _ => isFalse (fun e => by cases e)

/-- The two client calls `tryAcquireLock` makes, as transitions of a store
state `σ`. An `error` result is a transport failure or the expiry of the
five-second context. -/
structure Client (σ : Type) where
  Commit : σ → TxnRequest → Except String TxnResponse × σ
  Delete : σ → String → Except String Unit × σ

/-- Observable effects of `tryAcquireLock`, in program order. -/
inductive Event
  | Commit (req : TxnRequest)
  | Delete (key : String)
  | Println (msg : String)
  | Sleep (seconds : Nat)
deriving DecidableEq, Repr

/-- Outcome of running `tryAcquireLock` with a bound on the call depth:
`returned` when the outermost call returned, `recursing` when the bound was
reached with the innermost call about to call itself again. -/
inductive Run (σ : Type)
  | returned (s : σ) (trace : List Event)
  | recursing (s : σ) (trace : List Event)
deriving DecidableEq, Repr

/-- The transaction of lines 30-34: the comparison names the literal key
`"lock"`, the two operations name `lockKey`. -/
def lockTxn (lockKey : String) : TxnRequest :=
  { Cmps := [CmpValue "lock" "=" ""]
    ThenOps := [.OpPut lockKey "lock"]
    ElseOps := [.OpGet lockKey] }

/-- Lines 45-49: `_, err = client.Delete(ctx, lockKey)`, printing the error if
there is one. The first component is `err`. -/
def releaseLock {σ : Type} (c : Client σ) (s : σ) (lockKey : String) :
    Except String Unit × σ × List Event :=
  match c.Delete s lockKey with
  | (.error err, s') =>
    (.error err, s', [.Delete lockKey, .Println ("Error releasing lock: " ++ err)])
  | (.ok u, s') => (.ok u, s', [.Delete lockKey])

/-- The line printed on entry to the critical section (line 42). -/
def acquiredMsg : String := "Lock acquired, performing critical section..."

/-- The line printed on the retry branch (line 52). -/
def retryMsg : String := "Failed to acquire lock, retrying later..."

/-- `tryAcquireLock` (lines 26-56). The first argument bounds the depth of the
self-recursion of line 54; `trace` holds the effects of the enclosing calls. -/
def tryAcquireLock {σ : Type} (c : Client σ) :
    Nat → σ → String → List Event → Run σ
  | 0, s, _, trace => .recursing s trace
  | depth + 1, s, lockKey, trace =>
    match c.Commit s (lockTxn lockKey) with
    | (.error err, s1) =>
      .returned s1
        (trace ++ [.Commit (lockTxn lockKey), .Println ("Error acquiring lock: " ++ err)])
    | (.ok resp, s1) =>
      if resp.Header.Revision ≠ 0 then
        let (_, s2, released) := releaseLock c s1 lockKey
        .returned s2 (trace ++ [.Commit (lockTxn lockKey), .Println acquiredMsg] ++ released)
      else
        tryAcquireLock c depth s1 lockKey
          (trace ++ [.Commit (lockTxn lockKey), .Println retryMsg, .Sleep 1])

/-- Number of transactions in a trace. -/
def commits (trace : List Event) : Nat :=
  trace.countP fun e =>
    match e with
    | .Commit _ => true
    | _ => false

/-- Number of deletes in a trace. -/
def deletes (trace : List Event) : Nat :=
  trace.countP fun e =>
    match e with
    | .Delete _ => true
    | _ => false

/-- Number of sleeps in a trace. -/
def sleeps (trace : List Event) : Nat :=
  trace.countP fun e =>
    match e with
    | .Sleep _ => true
    | _ => false

/-- The call entered the critical section: it printed the line of line 42. -/
def enteredCritical (trace : List Event) : Bool := trace.contains (.Println acquiredMsg)

/-! ## The coordination store -/

/-- Modelled from the spec: the coordination store is an external service
(etcd), absent from the sources. A record of the store: key, value and the
store revision of its last write. -/
structure KeyValue where
  Key : String
  Value : String
  ModRevision : Nat
deriving DecidableEq, Repr

/-- Modelled from the spec: the state of the linearizable key-value store, its
records and its current revision. -/
structure Store where
  kvs : List KeyValue
  Revision : Nat
deriving DecidableEq, Repr

/-- Modelled from the spec: `get(key) -> value | absent`. -/
def Store.get (s : Store) (key : String) : Option KeyValue :=
  s.kvs.find? fun kv => kv.Key == key

/-- Modelled from the spec: `delete(key) -> ok`. Deleting a present key removes
it and advances the revision; deleting an absent key changes nothing. -/
def Store.delete (s : Store) (key : String) : Store :=
  if (s.get key).isSome then
    { kvs := s.kvs.filter fun kv => kv.Key != key, Revision := s.Revision + 1 }
  else s

/-- Modelled from the spec: effect of one operation of a transaction that
writes at revision `rev`. -/
def applyOp (rev : Nat) (kvs : List KeyValue) : Op → List KeyValue
  | .OpPut key val =>
    { Key := key, Value := val, ModRevision := rev } :: kvs.filter fun kv => kv.Key != key
  | .OpGet _ => kvs

/-- An operation that writes. -/
def Op.isWrite : Op → Bool
  | .OpPut _ _ => true
  | .OpGet _ => false

/-- Modelled from the spec: a branch of a transaction applied atomically; all
its writes share one new revision, and a branch without writes leaves the
revision where it was. -/
def Store.apply (s : Store) (ops : List Op) : Store :=
  if ops.any Op.isWrite then
    { kvs := ops.foldl (applyOp (s.Revision + 1)) s.kvs, Revision := s.Revision + 1 }
  else s

/-- Comparison of a stored value with the expected one. -/
def compareValue (result stored expected : String) : Bool :=
  if result = "=" then stored == expected
  else if result = "!=" then stored != expected
  else if result = ">" then decide (expected < stored)
  else if result = "<" then decide (stored < expected)
  else false

/-- Modelled from the spec: the predicate `value-at(key) == expected`. For an
absent key the spec reads "empty/absent value means the lock is free" while
etcd makes every value comparison on an absent key fail; `absentIsEmpty`
selects the reading (`false` is etcd). -/
def evalCmp (absentIsEmpty : Bool) (s : Store) (c : Cmp) : Bool :=
  match s.get c.Key with
  | none => absentIsEmpty && compareValue c.Result "" c.Value
  | some kv => compareValue c.Result kv.Value c.Value

/-- Modelled from the spec: `conditionalTransaction(predicate, thenOps, elseOps)
-> {succeeded, revision}`; exactly one branch runs, `succeeded` tells which,
and the header carries the store revision after the transaction. -/
def Store.Commit (absentIsEmpty : Bool) (s : Store) (req : TxnRequest) : TxnResponse × Store :=
  let succeeded := req.Cmps.all (evalCmp absentIsEmpty s)
  let s' := s.apply (if succeeded then req.ThenOps else req.ElseOps)
  ({ Header := { Revision := (s'.Revision : Int) }, Succeeded := succeeded }, s')

/-- A client connected to the store over a transport that never fails. -/
def etcd (absentIsEmpty : Bool) : Client Store where
  Commit := fun s req =>
    (.ok (Store.Commit absentIsEmpty s req).1, (Store.Commit absentIsEmpty s req).2)
  Delete := fun s key => (.ok (), s.delete key)

/-- A store in which an operator created the key `lock` with the empty value
(revision 1): the comparison of `lockTxn` holds there under either reading of
an absent key. -/
def seededStore : Store :=
  { kvs := [{ Key := "lock", Value := "", ModRevision := 1 }], Revision := 1 }

/-- The store `seededStore` after one write of `/my-lock`, at revision 2. -/
def onceWritten : Store :=
  { kvs := [{ Key := "/my-lock", Value := "lock", ModRevision := 2 },
            { Key := "lock", Value := "", ModRevision := 1 }],
    Revision := 2 }

/-- The store `seededStore` after a second write of `/my-lock`, at revision 3. -/
def twiceWritten : Store :=
  { kvs := [{ Key := "/my-lock", Value := "lock", ModRevision := 3 },
            { Key := "lock", Value := "", ModRevision := 1 }],
    Revision := 3 }

/-- A freshly started store: no records, revision 1. -/
def freshStore : Store := { kvs := [], Revision := 1 }

/-- A client whose every call fails (store unreachable); the state counts the
calls that reached it. -/
def unreachableStore : Client Nat where
  Commit := fun n _ => (.error "context deadline exceeded", n + 1)
  Delete := fun n _ => (.error "context deadline exceeded", n + 1)

/-- Where a process running `tryAcquireLock` stands between two store calls:
`Acquiring` before the transaction, `Held` inside the critical section (after
line 42, before the delete of line 46), `Losing` asleep on line 53,
`Released` after the delete, `Failed` after the return of line 37. -/
inductive Phase
  | Acquiring
  | Held
  | Losing
  | Released
  | Failed
deriving DecidableEq, Repr

/-- One atomic step of a process: a store call together with the local code
up to the next store call. -/
def procStep {σ : Type} (c : Client σ) (lockKey : String) (s : σ) :
    Phase → Option (σ × Phase × List Event)
  | .Acquiring =>
    match c.Commit s (lockTxn lockKey) with
    | (.error err, s1) =>
      some (s1, .Failed,
        [.Commit (lockTxn lockKey), .Println ("Error acquiring lock: " ++ err)])
    | (.ok resp, s1) =>
      if resp.Header.Revision ≠ 0 then
        some (s1, .Held, [.Commit (lockTxn lockKey), .Println acquiredMsg])
      else
        some (s1, .Losing, [.Commit (lockTxn lockKey), .Println retryMsg, .Sleep 1])
  | .Held =>
    let (_, s2, released) := releaseLock c s lockKey
    some (s2, .Released, released)
  | .Losing => some (s, .Acquiring, [])
  | .Released => none
  | .Failed => none

/-- The shared store and the phase of every process. -/
structure World (σ : Type) where
  store : σ
  procs : List Phase
deriving DecidableEq, Repr

/-- Process `pid` takes its next atomic step. -/
def World.step {σ : Type} (c : Client σ) (lockKey : String) (w : World σ) (pid : Nat) :
    Option (World σ) :=
  match w.procs.get? pid with
  | none => none
  | some ph =>
    match procStep c lockKey w.store ph with
    | none => none
    | some (s', ph', _) => some { store := s', procs := w.procs.set pid ph' }

/-- The world after the processes named in a schedule stepped in that order. -/
def World.run {σ : Type} (c : Client σ) (lockKey : String) :
    World σ → List Nat → Option (World σ)
  | w, [] => some w
  | w, pid :: rest =>
    match w.step c lockKey pid with
    | none => none
    | some w' => World.run c lockKey w' rest

/-- States reachable from `init` by interleaving atomic steps of the processes. -/
inductive Reachable {σ : Type} (c : Client σ) (lockKey : String) (init : World σ) :
    World σ → Prop
  | start : Reachable c lockKey init init
  | step {w w' : World σ} (pid : Nat) :
    Reachable c lockKey init w → w.step c lockKey pid = some w' → Reachable c lockKey init w'

/-- Number of processes inside the critical section. -/
def heldCount {σ : Type} (w : World σ) : Nat := w.procs.count .Held

/-- `n` contenders about to call `tryAcquireLock` on a store in state `s`. -/
def contenders {σ : Type} (s : σ) (n : Nat) : World σ :=
  { store := s, procs := List.replicate n .Acquiring }

/-- A process run alone: its atomic steps in sequence, at most `n` of them,
with the effects collected. -/
def soloRun {σ : Type} (c : Client σ) (lockKey : String) :
    Nat → σ → Phase → List Event → Run σ
  | 0, s, _, trace => .recursing s trace
  | n + 1, s, ph, trace =>
    match procStep c lockKey s ph with
    | none => .returned s trace
    | some (s', ph', effects) => soloRun c lockKey n s' ph' (trace ++ effects)

/-! ## Theorems: arithmetic of Go ints -/

theorem wrapInt_isGoInt (x : Int) : IsGoInt (wrapInt x) := by
  unfold IsGoInt wrapInt
  have h1 : 0 ≤ (x + 2 ^ 63) % 2 ^ 64 := Int.emod_nonneg _ (by norm_num)
  have h2 : (x + 2 ^ 63) % 2 ^ 64 < 2 ^ 64 := Int.emod_lt_of_pos _ (by norm_num)
  constructor <;> omega

theorem wrapInt_modEq (x : Int) : wrapInt x ≡ x [ZMOD 2 ^ 64] := by
  unfold wrapInt
  have h : (x + 2 ^ 63) % 2 ^ 64 ≡ x + 2 ^ 63 [ZMOD 2 ^ 64] := Int.mod_modEq _ _
  have h2 := h.sub_right (2 ^ 63)
  simpa using h2

theorem wrapInt_congr {x y : Int} (h : x ≡ y [ZMOD 2 ^ 64]) : wrapInt x = wrapInt y := by
  unfold wrapInt
  have h2 : (x + 2 ^ 63) % 2 ^ 64 = (y + 2 ^ 63) % 2 ^ 64 := h.add_right (2 ^ 63)
  rw [h2]

theorem wrapInt_of_isGoInt {x : Int} (h : IsGoInt x) : wrapInt x = x := by
  unfold IsGoInt at h
  unfold wrapInt
  rw [Int.emod_eq_of_lt (by omega) (by omega)]
  omega

theorem Calculator_MathImpl (a b : Int) :
    Calculator MathImpl a b = wrapInt ((a + b) + a * b) := by
  unfold Calculator MathImpl
  exact wrapInt_congr ((wrapInt_modEq _).add (wrapInt_modEq _))

/-- C9. For all Go ints `a`, `b`: `MathImpl.Add(a, b)` is the Go int congruent
to `a + b` modulo `2^64`, `MathImpl.Multiply(a, b)` the one congruent to
`a * b`, `Calculator` called with a `MathImpl` returns the Go int congruent to
`(a + b) + (a * b)` (and exactly that number when no operation overflows), and
`Calculator(MathImpl, a, b) = Calculator(MathImpl, b, a)`. -/
theorem C9_mathImpl_calculator (a b : Int) :
    (IsGoInt (MathImpl.Add a b) ∧ MathImpl.Add a b ≡ a + b [ZMOD 2 ^ 64]) ∧
    (IsGoInt (MathImpl.Multiply a b) ∧ MathImpl.Multiply a b ≡ a * b [ZMOD 2 ^ 64]) ∧
    (IsGoInt (Calculator MathImpl a b) ∧
      Calculator MathImpl a b ≡ (a + b) + a * b [ZMOD 2 ^ 64]) ∧
    Calculator MathImpl a b = wrapInt (MathImpl.Add a b + MathImpl.Multiply a b) ∧
    (IsGoInt (a + b) → IsGoInt (a * b) → IsGoInt ((a + b) + a * b) →
      MathImpl.Add a b = a + b ∧ MathImpl.Multiply a b = a * b ∧
      Calculator MathImpl a b = (a + b) + a * b) ∧
    Calculator MathImpl a b = Calculator MathImpl b a := by
  refine ⟨⟨wrapInt_isGoInt _, wrapInt_modEq _⟩, ⟨wrapInt_isGoInt _, wrapInt_modEq _⟩,
    ⟨wrapInt_isGoInt _, ?_⟩, rfl, ?_, ?_⟩
  · rw [Calculator_MathImpl]; exact wrapInt_modEq _
  · intro h1 h2 h3
    refine ⟨wrapInt_of_isGoInt h1, wrapInt_of_isGoInt h2, ?_⟩
    rw [Calculator_MathImpl]; exact wrapInt_of_isGoInt h3
  · rw [Calculator_MathImpl, Calculator_MathImpl]
    congr 1; ring

/-- Witness of C9 at `a = 3`, `b = 5` (the values of `main`). -/
theorem C9_mathImpl_calculator_witness :
    MathImpl.Add 3 5 = 3 + 5 ∧ MathImpl.Multiply 3 5 = 3 * 5 ∧
      Calculator MathImpl 3 5 = (3 + 5) + 3 * 5 :=
  (C9_mathImpl_calculator 3 5).2.2.2.2.1 (by decide) (by decide) (by decide)

/-! ## Theorems: createTopicIfNoteExist -/

/-- C8. With every client call succeeding and `ListTopics` answering `listing`,
`createTopicIfNoteExist` returns true exactly when the topic is absent from the
listing; it then issues exactly one `CreateTopic`, for that topic, with one
partition and replication factor one; when the topic is listed it returns false
and issues no `CreateTopic`. -/
theorem C8_createTopicIfNoteExist {κ : Type} (lib : Sarama κ) (config : κ) (topic : String)
    (brokers : List String) (listing : List (String × TopicDetail))
    (hClient : lib.NewClient brokers config = .ok ())
    (hAdmin : lib.NewClusterAdminFromClient = .ok ())
    (hList : lib.ListTopics = .ok listing)
    (hCreate : ∀ d v, lib.CreateTopic topic d v = .ok ()) :
    ((createTopicIfNoteExist lib config topic brokers).1 = .Return true ↔
        topic ∉ listing.map Prod.fst) ∧
    (topic ∉ listing.map Prod.fst →
      createCalls (createTopicIfNoteExist lib config topic brokers).2 =
        [.CreateTopic topic
          { NumPartitions := 1, ReplicationFactor := 1, ConfigEntries := none } false]) ∧
    (topic ∈ listing.map Prod.fst →
      (createTopicIfNoteExist lib config topic brokers).1 = .Return false ∧
      createCalls (createTopicIfNoteExist lib config topic brokers).2 = []) := by
  have hmem : topic ∈ listing.map Prod.fst ↔ listing.lookup topic ≠ none := by
    rw [Ne, List.lookup_eq_none_iff]
    simp only [List.mem_map, bne_iff_ne, ne_eq, not_forall, Classical.not_not]
    constructor
    · rintro ⟨p, hp, rfl⟩
      exact ⟨p, hp, rfl⟩
    · rintro ⟨p, hp, e⟩
      exact ⟨p, hp, e.symm⟩
  cases hl : listing.lookup topic with
  | none =>
    have habs : topic ∉ listing.map Prod.fst := fun h => (hmem.1 h) hl
    simp [createTopicIfNoteExist, hClient, hAdmin, hList, hl, hCreate, createCalls, habs]
  | some d =>
    have hpres : topic ∈ listing.map Prod.fst := hmem.2 (by simp [hl])
    simp [createTopicIfNoteExist, hClient, hAdmin, hList, hl, createCalls, hpres]

/-- Witness of C8: topic `my-topic` on a cluster that lists only `orders`. -/
theorem C8_createTopicIfNoteExist_witness :
    (createTopicIfNoteExist (healthyCluster sampleListing) () "my-topic"
      ["localhost:29092"]).1 = .Return true :=
  (C8_createTopicIfNoteExist (healthyCluster sampleListing) () "my-topic" ["localhost:29092"]
    sampleListing rfl rfl rfl (fun _ _ => rfl)).1.2 (by decide)

/-! ## Theorems: one call of tryAcquireLock -/

theorem commits_append (a b : List Event) : commits (a ++ b) = commits a + commits b := by
  simp [commits]

theorem sleeps_append (a b : List Event) : sleeps (a ++ b) = sleeps a + sleeps b := by
  simp [sleeps]

theorem deletes_append (a b : List Event) : deletes (a ++ b) = deletes a + deletes b := by
  simp [deletes]

/-- The release step issues one `Delete` of the lock key and nothing else to
the store; its state and error are those of that call. -/
theorem releaseLock_spec {σ : Type} (c : Client σ) (s : σ) (lockKey : String) :
    (releaseLock c s lockKey).1 = (c.Delete s lockKey).1 ∧
    (releaseLock c s lockKey).2.1 = (c.Delete s lockKey).2 ∧
    (releaseLock c s lockKey).2.2.head? = some (.Delete lockKey) ∧
    commits (releaseLock c s lockKey).2.2 = 0 ∧
    sleeps (releaseLock c s lockKey).2.2 = 0 ∧
    deletes (releaseLock c s lockKey).2.2 = 1 := by
  unfold releaseLock
  rcases h : c.Delete s lockKey with ⟨r, s'⟩
  cases r <;> simp [commits, sleeps, deletes]

/-- A call whose transaction commits with a nonzero header revision takes the
win path, whatever the `Succeeded` flag says. -/
theorem tryAcquireLock_nonzero {σ : Type} (c : Client σ) (s s1 : σ) (lockKey : String)
    (depth : Nat) (trace : List Event) (resp : TxnResponse)
    (h : c.Commit s (lockTxn lockKey) = (.ok resp, s1)) (hrev : resp.Header.Revision ≠ 0) :
    tryAcquireLock c (depth + 1) s lockKey trace =
      .returned (releaseLock c s1 lockKey).2.1
        (trace ++ [.Commit (lockTxn lockKey), .Println acquiredMsg] ++
          (releaseLock c s1 lockKey).2.2) := by
  simp [tryAcquireLock, h, hrev]

/-- A call whose transaction commits with header revision zero sleeps one
second and calls itself. -/
theorem tryAcquireLock_zero {σ : Type} (c : Client σ) (s s1 : σ) (lockKey : String)
    (depth : Nat) (trace : List Event) (resp : TxnResponse)
    (h : c.Commit s (lockTxn lockKey) = (.ok resp, s1)) (hrev : resp.Header.Revision = 0) :
    tryAcquireLock c (depth + 1) s lockKey trace =
      tryAcquireLock c depth s1 lockKey
        (trace ++ [.Commit (lockTxn lockKey), .Println retryMsg, .Sleep 1]) := by
  simp [tryAcquireLock, h, hrev]

/-- A call whose transaction fails prints the error and returns. -/
theorem tryAcquireLock_error {σ : Type} (c : Client σ) (s s1 : σ) (lockKey : String)
    (depth : Nat) (trace : List Event) (err : String)
    (h : c.Commit s (lockTxn lockKey) = (.error err, s1)) :
    tryAcquireLock c (depth + 1) s lockKey trace =
      .returned s1
        (trace ++ [.Commit (lockTxn lockKey), .Println ("Error acquiring lock: " ++ err)]) := by
  simp [tryAcquireLock, h]

/-- C6. When the transaction fails with an error, `tryAcquireLock` returns at
once: its whole effect is the failed transaction and one printed line, so it
issues no second transaction and no delete, does not sleep, does not enter the
critical section, and the store is in the state the failed call left. -/
theorem C6_error_no_retry {σ : Type} (c : Client σ) (s s1 : σ) (lockKey : String)
    (depth : Nat) (err : String)
    (h : c.Commit s (lockTxn lockKey) = (.error err, s1)) :
    tryAcquireLock c (depth + 1) s lockKey [] =
      .returned s1 [.Commit (lockTxn lockKey), .Println ("Error acquiring lock: " ++ err)] ∧
    commits [Event.Commit (lockTxn lockKey), .Println ("Error acquiring lock: " ++ err)] = 1 ∧
    deletes [Event.Commit (lockTxn lockKey), .Println ("Error acquiring lock: " ++ err)] = 0 ∧
    sleeps [Event.Commit (lockTxn lockKey), .Println ("Error acquiring lock: " ++ err)] = 0 ∧
    enteredCritical
      [Event.Commit (lockTxn lockKey), .Println ("Error acquiring lock: " ++ err)] = false := by
  refine ⟨?_, by simp [commits], by simp [deletes], by simp [sleeps], ?_⟩
  · simpa using tryAcquireLock_error c s s1 lockKey depth [] err h
  · have hne : ("Error acquiring lock: " ++ err) ≠ acquiredMsg := by
      intro heq
      have h2 := congrArg (fun t => t.data.head?) heq
      simp [acquiredMsg] at h2
    simp [enteredCritical, hne.symm]

/-- Witness of C6: the store is unreachable when `/my-lock` is requested. -/
theorem C6_error_no_retry_witness :
    tryAcquireLock unreachableStore 1 0 "/my-lock" [] =
      .returned 1 [.Commit (lockTxn "/my-lock"),
        .Println ("Error acquiring lock: " ++ "context deadline exceeded")] :=
  (C6_error_no_retry unreachableStore 0 1 "/my-lock" 0 "context deadline exceeded" rfl).1

/-- C10. If the header revision of a committed response is never zero, a call
of `tryAcquireLock` returns without recursing (call depth one suffices) after
exactly one transaction and no sleep, whatever the transaction's outcome; when
the transaction commits, on either branch, the call enters the critical section
and issues exactly one delete, of the lock key; when it fails, none. -/
theorem C10_retry_unreachable {σ : Type} (c : Client σ) (s : σ) (lockKey : String)
    (depth : Nat)
    (hrev : ∀ resp s1, c.Commit s (lockTxn lockKey) = (.ok resp, s1) →
      resp.Header.Revision ≠ 0) :
    ∃ s' trace, tryAcquireLock c (depth + 1) s lockKey [] = .returned s' trace ∧
      commits trace = 1 ∧ sleeps trace = 0 ∧
      (∀ resp s1, c.Commit s (lockTxn lockKey) = (.ok resp, s1) →
        s' = (c.Delete s1 lockKey).2 ∧
        trace.take 3 = [.Commit (lockTxn lockKey), .Println acquiredMsg, .Delete lockKey] ∧
        deletes trace = 1) ∧
      (∀ err s1, c.Commit s (lockTxn lockKey) = (.error err, s1) →
        s' = s1 ∧ deletes trace = 0) := by
  rcases h : c.Commit s (lockTxn lockKey) with ⟨r, s1⟩
  cases r with
  | error err =>
    refine ⟨s1, _, by simpa using tryAcquireLock_error c s s1 lockKey depth [] err h, ?_⟩
    simp [commits, sleeps, deletes]
  | ok resp =>
    have hr := hrev resp s1 h
    obtain ⟨_, h2, h3, h4, h5, h6⟩ := releaseLock_spec c s1 lockKey
    refine ⟨_, _, tryAcquireLock_nonzero c s s1 lockKey depth [] resp h hr, ?_, ?_, ?_, ?_⟩
    · rw [commits_append, h4]; simp [commits]
    · rw [sleeps_append, h5]; simp [sleeps]
    · intro resp2 s2 heq
      cases heq
      refine ⟨h2, ?_, ?_⟩
      · cases hl : (releaseLock c s1 lockKey).2.2 with
        | nil => simp [hl] at h3
        | cons e rest =>
          simp only [hl, List.head?_cons, Option.some.injEq] at h3
          simp [h3]
      · rw [deletes_append, h6]; simp [deletes]
    · intro err s2 heq
      cases heq

/-- Witness of C10: a fresh etcd (revision 1) and the key of `main`; the else
branch runs, and the call enters the critical section and deletes the key. -/
theorem C10_retry_unreachable_witness :
    ∃ s' trace, tryAcquireLock (etcd false) 1 freshStore "/my-lock" [] = .returned s' trace ∧
      commits trace = 1 ∧ sleeps trace = 0 ∧
      (∀ resp s1, (etcd false).Commit freshStore (lockTxn "/my-lock") = (.ok resp, s1) →
        s' = ((etcd false).Delete s1 "/my-lock").2 ∧
        trace.take 3 =
          [.Commit (lockTxn "/my-lock"), .Println acquiredMsg, .Delete "/my-lock"] ∧
        deletes trace = 1) ∧
      (∀ err s1, (etcd false).Commit freshStore (lockTxn "/my-lock") = (.error err, s1) →
        s' = s1 ∧ deletes trace = 0) :=
  C10_retry_unreachable (etcd false) freshStore "/my-lock" 0 (by
    intro resp s1 h
    have h1 : resp = (Store.Commit false freshStore (lockTxn "/my-lock")).1 := by
      simp only [etcd] at h
      cases h
      rfl
    subst h1
    decide)

/-- C1 (the code at the failing input). Key `lock` is held by another process
(record written at revision 2). The transaction's else branch runs, so the
response says `Succeeded = false` with header revision 2; `tryAcquireLock`
nevertheless prints the critical-section line and deletes the holder's record. -/
theorem C1_win_path_on_lost_race :
    ∀ absentIsEmpty : Bool,
      (Store.Commit absentIsEmpty
          { kvs := [{ Key := "lock", Value := "lock", ModRevision := 2 }], Revision := 2 }
          (lockTxn "lock")).1 = { Header := { Revision := 2 }, Succeeded := false } ∧
      tryAcquireLock (etcd absentIsEmpty) 1
          { kvs := [{ Key := "lock", Value := "lock", ModRevision := 2 }], Revision := 2 }
          "lock" [] =
        .returned { kvs := [], Revision := 3 }
          [.Commit (lockTxn "lock"), .Println acquiredMsg, .Delete "lock"] := by
  decide

/-- C5 (the code at the failing input). For the key of `main`, `/my-lock`, the
transaction compares the value stored at the literal key `lock`, a different
key, while it writes and reads `/my-lock`. -/
theorem C5_compare_names_other_key :
    (lockTxn "/my-lock").Cmps = [CmpValue "lock" "=" ""] ∧
    (lockTxn "/my-lock").ThenOps = [.OpPut "/my-lock" "lock"] ∧
    (lockTxn "/my-lock").ElseOps = [.OpGet "/my-lock"] ∧
    (lockTxn "/my-lock").Cmps.map Cmp.Key ≠ ["/my-lock"] ∧
    (∀ lockKey : String, (lockTxn lockKey).Cmps.map Cmp.Key = ["lock"]) :=
  ⟨by decide, by decide, by decide, by decide, fun _ => rfl⟩

/-! ## Theorems: retry -/

theorem find_filter_same (kvs : List KeyValue) (key : String) :
    (kvs.filter fun kv => kv.Key != key).find? (fun kv => kv.Key == key) = none := by
  simp [List.find?_eq_none, List.mem_filter]

theorem find_filter_other (kvs : List KeyValue) (key k : String) (hk : k ≠ key) :
    (kvs.filter fun kv => kv.Key != key).find? (fun kv => kv.Key == k) =
      kvs.find? (fun kv => kv.Key == k) := by
  induction kvs with
  | nil => rfl
  | cons kv rest ih =>
    by_cases h1 : kv.Key = key
    · have h2 : kv.Key ≠ k := fun h => hk (h.symm.trans h1)
      have e1 : (kv.Key != key) = false := by simp [h1]
      have e2 : (kv.Key == k) = false := by simp [h2]
      rw [List.filter_cons, List.find?_cons, e1, e2]
      exact ih
    · have e1 : (kv.Key != key) = true := by simp [h1]
      rw [List.filter_cons, e1, if_pos rfl, List.find?_cons, List.find?_cons, ih]

theorem Store.get_delete_same (s : Store) (key : String) : (s.delete key).get key = none := by
  unfold Store.delete
  split
  · exact find_filter_same s.kvs key
  · rename_i h
    simpa using h

theorem Store.get_delete_other (s : Store) (key k : String) (hk : k ≠ key) :
    (s.delete key).get k = s.get k := by
  unfold Store.delete
  split
  · exact find_filter_other s.kvs key k hk
  · rfl

theorem Store.delete_absent (s : Store) (key : String) (h : s.get key = none) :
    s.delete key = s := by
  simp [Store.delete, h]

theorem releaseLock_etcd (b : Bool) (s : Store) (lockKey : String) :
    releaseLock (etcd b) s lockKey = (.ok (), s.delete lockKey, [.Delete lockKey]) := rfl

/-- C3 (as amended). Over a transport that does not fail, for every store state
the release step is an unconditional delete of the lock key: it issues one
`Delete`, reports no error, leaves no record at the lock key whoever wrote the
one that was there, and leaves the record of every other key as it was. -/
theorem C3_release_unconditional (absentIsEmpty : Bool) (s : Store) (lockKey : String) :
    (releaseLock (etcd absentIsEmpty) s lockKey).1 = .ok () ∧
    (releaseLock (etcd absentIsEmpty) s lockKey).2.2 = [.Delete lockKey] ∧
    (releaseLock (etcd absentIsEmpty) s lockKey).2.1.get lockKey = none ∧
    (∀ k, k ≠ lockKey → (releaseLock (etcd absentIsEmpty) s lockKey).2.1.get k = s.get k) := by
  rw [releaseLock_etcd]
  exact ⟨rfl, rfl, Store.get_delete_same s lockKey,
    fun k hk => Store.get_delete_other s lockKey k hk⟩

/-- Witness of C3 (as amended): releasing `/my-lock` leaves the key `lock` alone. -/
theorem C3_release_unconditional_witness :
    (releaseLock (etcd false) twiceWritten "/my-lock").2.1.get "lock" =
      some { Key := "lock", Value := "", ModRevision := 1 } :=
  ((C3_release_unconditional false twiceWritten "/my-lock").2.2.2 "lock" (by decide)).trans
    (by decide)

/-- C3 (counterexample). Two contenders for `/my-lock` on `seededStore`, under
either reading of a comparison on an absent key. Process 0 writes the record at
revision 2; process 1 overwrites it at revision 3, so the record now is
process 1's. The release step of process 0 then reports no error and removes
that record, while process 1 is still in the critical section. -/
theorem C3_release_deletes_foreign_record :
    (World.run (etcd false) "/my-lock" (contenders seededStore 2) [0] =
        some { store := onceWritten, procs := [.Held, .Acquiring] } ∧
      World.run (etcd false) "/my-lock" (contenders seededStore 2) [0, 1] =
        some { store := twiceWritten, procs := [.Held, .Held] } ∧
      releaseLock (etcd false) twiceWritten "/my-lock" =
        (.ok (), { kvs := [{ Key := "lock", Value := "", ModRevision := 1 }], Revision := 4 },
          [.Delete "/my-lock"]) ∧
      World.run (etcd false) "/my-lock" (contenders seededStore 2) [0, 1, 0] =
        some { store := { kvs := [{ Key := "lock", Value := "", ModRevision := 1 }],
                          Revision := 4 },
               procs := [.Released, .Held] }) ∧
    (World.run (etcd true) "/my-lock" (contenders seededStore 2) [0] =
        some { store := onceWritten, procs := [.Held, .Acquiring] } ∧
      World.run (etcd true) "/my-lock" (contenders seededStore 2) [0, 1] =
        some { store := twiceWritten, procs := [.Held, .Held] } ∧
      releaseLock (etcd true) twiceWritten "/my-lock" =
        (.ok (), { kvs := [{ Key := "lock", Value := "", ModRevision := 1 }], Revision := 4 },
          [.Delete "/my-lock"]) ∧
      World.run (etcd true) "/my-lock" (contenders seededStore 2) [0, 1, 0] =
        some { store := { kvs := [{ Key := "lock", Value := "", ModRevision := 1 }],
                          Revision := 4 },
               procs := [.Released, .Held] }) := by
  decide

/-- C7. Over a transport that does not fail, for every store state and lock
key: releasing a key that is absent reports no error and leaves the store as
it was; and after one release a second release of the same key reports no
error and leaves the store as the first one left it. -/
theorem C7_release_idempotent (absentIsEmpty : Bool) (s : Store) (lockKey : String) :
    (s.get lockKey = none →
      releaseLock (etcd absentIsEmpty) s lockKey = (.ok (), s, [.Delete lockKey])) ∧
    releaseLock (etcd absentIsEmpty) (releaseLock (etcd absentIsEmpty) s lockKey).2.1 lockKey =
      (.ok (), (releaseLock (etcd absentIsEmpty) s lockKey).2.1, [.Delete lockKey]) := by
  constructor
  · intro h
    rw [releaseLock_etcd, Store.delete_absent s lockKey h]
  · rw [releaseLock_etcd, releaseLock_etcd]
    simp only
    rw [Store.delete_absent _ lockKey (Store.get_delete_same s lockKey)]

/-- Witness of C7: `/my-lock` is absent from a fresh store. -/
theorem C7_release_idempotent_witness :
    releaseLock (etcd false) freshStore "/my-lock" =
      (.ok (), freshStore, [.Delete "/my-lock"]) :=
  (C7_release_idempotent false freshStore "/my-lock").1 (by decide)

/-! ## Theorems: concurrent contenders -/

/-- The steps of a process run alone add up to a call of `tryAcquireLock`. -/
theorem soloRun_of_tryAcquireLock {σ : Type} (c : Client σ) (lockKey : String) (depth : Nat) :
    ∀ (s s' : σ) (trace trace' : List Event),
      tryAcquireLock c depth s lockKey trace = .returned s' trace' →
      ∃ n, soloRun c lockKey n s .Acquiring trace = .returned s' trace' := by
  induction depth with
  | zero =>
    intro s s' trace trace' h
    simp [tryAcquireLock] at h
  | succ d ih =>
    intro s s' trace trace' h
    rcases hc : c.Commit s (lockTxn lockKey) with ⟨r, s1⟩
    cases r with
    | error err =>
      rw [tryAcquireLock_error c s s1 lockKey d trace err hc] at h
      exact ⟨2, by simpa [soloRun, procStep, hc] using h⟩
    | ok resp =>
      by_cases hr : resp.Header.Revision = 0
      · rw [tryAcquireLock_zero c s s1 lockKey d trace resp hc hr] at h
        obtain ⟨n, hn⟩ := ih s1 s' _ trace' h
        exact ⟨n + 2, by simpa [soloRun, procStep, hc, hr] using hn⟩
      · rw [tryAcquireLock_nonzero c s s1 lockKey d trace resp hc hr] at h
        exact ⟨3, by simpa [soloRun, procStep, hc, hr] using h⟩

/-- Every world a schedule leads to is reachable. -/
theorem Reachable.of_run {σ : Type} (c : Client σ) (lockKey : String) (init : World σ)
    (schedule : List Nat) : ∀ (w w' : World σ), Reachable c lockKey init w →
      World.run c lockKey w schedule = some w' → Reachable c lockKey init w' := by
  induction schedule with
  | nil =>
    intro w w' hw h
    simp only [World.run, Option.some.injEq] at h
    exact h ▸ hw
  | cons pid rest ih =>
    intro w w' hw h
    simp only [World.run] at h
    cases hs : w.step c lockKey pid with
    | none => simp [hs] at h
    | some w1 =>
      simp only [hs] at h
      exact ih w1 w' (Reachable.step pid hw hs) h

/-- C2 (the code at the failing input). Two processes call `tryAcquireLock`
on the key of `main` against a fresh store, each transaction one atomic step:
after both transactions both processes are in the critical section. The same
happens for the key `lock` on `seededStore`, where the first process wins the
race properly and the second one loses it. -/
theorem C2_two_processes_held :
    ∀ absentIsEmpty : Bool,
      (∃ w, Reachable (etcd absentIsEmpty) "/my-lock" (contenders freshStore 2) w ∧
        w.procs = [.Held, .Held] ∧ heldCount w = 2) ∧
      (Store.Commit absentIsEmpty seededStore (lockTxn "lock")).1.Succeeded = true ∧
      (Store.Commit absentIsEmpty
        (Store.Commit absentIsEmpty seededStore (lockTxn "lock")).2
        (lockTxn "lock")).1 = { Header := { Revision := 2 }, Succeeded := false } ∧
      (∃ w, Reachable (etcd absentIsEmpty) "lock" (contenders seededStore 2) w ∧
        w.procs = [.Held, .Held] ∧ heldCount w = 2) := by
  intro b
  refine ⟨?_, by revert b; decide, by revert b; decide, ?_⟩
  · have h : ∃ w, World.run (etcd b) "/my-lock" (contenders freshStore 2) [0, 1] = some w ∧
        w.procs = [.Held, .Held] ∧ heldCount w = 2 := by
      revert b; decide
    obtain ⟨w, hrun, hp, hc⟩ := h
    exact ⟨w, Reachable.of_run _ _ _ _ _ w Reachable.start hrun, hp, hc⟩
  · have h : ∃ w, World.run (etcd b) "lock" (contenders seededStore 2) [0, 1] = some w ∧
        w.procs = [.Held, .Held] ∧ heldCount w = 2 := by
      revert b; decide
    obtain ⟨w, hrun, hp, hc⟩ := h
    exact ⟨w, Reachable.of_run _ _ _ _ _ w Reachable.start hrun, hp, hc⟩

end BrainBank
